import Mathlib

/-!
Verification of the companion-file (subtitle / secondary audio) discovery
engine of this VLC excerpt.

The development shallowly embeds the relevant C functions of
`src/input/subtitles.c` and `modules/demux/playlist/directory.c`:
C strings become `List Char` (C strings cannot contain NUL, and all the
byte-level classification in the source is done with `isalnum`, `isdigit`
and `tolower` in the portable "C" locale, i.e. on ASCII), C ints become
`Int`/`Nat`, and fallible or undefined behaviour is made explicit with
`Option`/`Except`.
-/

/-! ### C character classification ("C" locale, ASCII) -/

/-- ASCII NUL, the C string terminator (used only as a `headD` default for
reads of `s[0]` on a possibly empty string, exactly where the C code reads
the terminator). -/
def nulChar : Char := Char.ofNat 0

/-- C `isalnum` in the portable "C" locale: ASCII digits and letters. -/
def isalnumA (c : Char) : Bool :=
  decide ((48 ≤ c.toNat ∧ c.toNat ≤ 57) ∨ (65 ≤ c.toNat ∧ c.toNat ≤ 90) ∨
          (97 ≤ c.toNat ∧ c.toNat ≤ 122))

/-- C `isdigit` in the "C" locale: ASCII digits. -/
def isdigitA (c : Char) : Bool := decide (48 ≤ c.toNat ∧ c.toNat ≤ 57)

/-- C `tolower` in the "C" locale: maps the 26 ASCII upper-case letters to
lower case and leaves every other byte unchanged. -/
def tolowerA : Char → Char
  | 'A' => 'a' | 'B' => 'b' | 'C' => 'c' | 'D' => 'd' | 'E' => 'e' | 'F' => 'f'
  | 'G' => 'g' | 'H' => 'h' | 'I' => 'i' | 'J' => 'j' | 'K' => 'k' | 'L' => 'l'
  | 'M' => 'm' | 'N' => 'n' | 'O' => 'o' | 'P' => 'p' | 'Q' => 'q' | 'R' => 'r'
  | 'S' => 's' | 'T' => 't' | 'U' => 'u' | 'V' => 'v' | 'W' => 'w' | 'X' => 'x'
  | 'Y' => 'y' | 'Z' => 'z'
  | c => c

/-- Characters that `isalnumA` accepts and `tolowerA` leaves fixed: the
alphabet a normalized name is built from (besides separating spaces). -/
def lowAl (c : Char) : Bool := isalnumA c && (tolowerA c == c)

/-! ### C string helpers shared by both call sites -/

/-- Case-insensitive string equality: `strcasecmp(a, b) == 0`. -/
def strcaseeq (a b : List Char) : Bool := decide (a.map tolowerA = b.map tolowerA)

/-- Case-insensitive bounded comparison: `strncasecmp(a, b, n) == 0`.
C compares at most `n` bytes and stops at a NUL in either argument, so the
comparison succeeds exactly when the first `n` characters (or all of them,
for the shorter string — in which case the lengths up to `n` must agree)
are case-insensitively equal. -/
def strncaseeq (a b : List Char) (n : Nat) : Bool :=
  decide ((a.take n).map tolowerA = (b.take n).map tolowerA)

/-- The substring after the last `'.'` of `s`, if `s` contains a dot:
`strrchr(s, '.')` plus one.  `none` when there is no dot at all. -/
def extOf : List Char → Option (List Char)
  | [] => none
  | c :: rest =>
    match extOf rest with
    | some e => some e
    | none => if c = '.' then some rest else none

/-- The prefix of `s` before its last `'.'`, if `s` contains a dot. -/
def noExtOf : List Char → Option (List Char)
  | [] => none
  | c :: rest =>
    match noExtOf rest with
    | some pre => some (c :: pre)
    | none => if c = '.' then some [] else none

/-- C `strstr(hay, needle)`: the suffix of `hay` that starts at the first
occurrence of `needle`, or `none` when `needle` does not occur.  An empty
needle occurs at the very beginning, as in C. -/
def strstrSuffix (hay needle : List Char) : Option (List Char) :=
  if needle.isPrefixOf hay then some hay
  else
    match hay with
    | [] => none
    | _ :: t => strstrSuffix t needle

/-- `whiteonly` from `subtitles.c` lines 115-126: true when the string has
no alphanumeric character. -/
def whiteonly (s : List Char) : Bool := s.all (fun c => !isalnumA c)

/-! ### `strcpy_trim` (subtitles.c lines 58-85): the name normalizer -/

/-- The body of `strcpy_trim` as a character-at-a-time state machine
equivalent to the C pointer loop of lines 62-84: `started` records that at
least one alphanumeric character has been copied (the C code is past the
initial skip-leading-separators loop), `sep` records that separator
characters were consumed since the last copied run (the C
trim-excess-whitespace inner loop ran).  The single `' '` that the C loop
writes before copying the next run (line 82) is emitted here when the
next run's first character is reached, which happens exactly when the C
code reaches line 82: both inner skip loops stop only at an alphanumeric
character or at the terminator, and no space is written at the end. -/
def trimGo (started sep : Bool) : List Char → List Char
  | [] => []
  | c :: rest =>
    if isalnumA c then
      if started && sep then ' ' :: tolowerA c :: trimGo true false rest
      else tolowerA c :: trimGo true false rest
    else trimGo started true rest

/-- `strcpy_trim` from `subtitles.c` lines 58-85. -/
def strcpy_trim (s : List Char) : List Char := trimGo false false s

/-- A well-formed word list: every word is nonempty and consists of
lower-case alphanumeric characters only. -/
def AllWords (ws : List (List Char)) : Prop :=
  ∀ w ∈ ws, w ≠ [] ∧ ∀ c ∈ w, lowAl c = true

instance (ws : List (List Char)) : Decidable (AllWords ws) := by
  unfold AllWords; infer_instance

/-- Words joined by single interior spaces: the normal form produced by
`strcpy_trim`. -/
def joinWords : List (List Char) → List Char
  | [] => []
  | [w] => w
  | w :: ws => w ++ ' ' :: joinWords ws

/-! ### Extension stripping and the subtitle-extension filter (subtitles.c) -/

/-- `strcpy_strip_ext` from `subtitles.c` lines 87-104: copy the part
before the last dot, lower-cased; with no dot the string is copied
verbatim (the C function returns before its lower-casing loop). -/
def strcpy_strip_ext (s : List Char) : List Char :=
  match noExtOf s with
  | none => s
  | some pre => pre.map tolowerA

/-- `strcpy_get_ext` from `subtitles.c` lines 106-113: the substring after
the last dot, or the empty string when there is no dot. -/
def strcpy_get_ext (s : List Char) : List Char :=
  match extOf s with
  | none => []
  | some e => e

/-- `sub_exts` from `subtitles.c` lines 47-56 (the `""` terminator ends
the array and is not an entry). -/
def sub_exts : List (List Char) :=
  ["idx", "sub", "srt", "ssa", "ass", "smi", "utf", "utf8", "utf-8", "rt",
   "aqt", "txt", "usf", "jss", "cdg", "psb", "mpsub", "mpl2", "pjs", "dks",
   "stl", "vtt", "sbv"].map String.toList

/-- `subtitles_Filter` from `subtitles.c` lines 131-143: true when the
substring after the last dot compares case-insensitively equal
(`strcasecmp`) to one of the listed subtitle extensions. -/
def subtitles_Filter (psz_dir_content : List Char) : Bool :=
  match extOf psz_dir_content with
  | none => false
  | some ext => sub_exts.any (fun e => strcaseeq e ext)

/-! ### Slave priorities

Modelled from the spec: the `SLAVE_PRIORITY_*` constants come from a VLC
header that is not part of the excerpt.  The spec fixes their order as
None < MatchNone < MatchLeft / MatchRight < MatchAll; the code only uses
numeric `>=` comparisons against the threshold and `< MATCH_ALL`, so any
assignment respecting that order is faithful. -/

/-- Modelled from the spec: priority of a file that was not emitted. -/
def SLAVE_PRIORITY_NONE : Nat := 0

/-- Modelled from the spec: bare presence in the primary directory. -/
def SLAVE_PRIORITY_MATCH_NONE : Nat := 1

/-- Modelled from the spec: primary name found, nothing but separators
after it. -/
def SLAVE_PRIORITY_MATCH_RIGHT : Nat := 2

/-- Modelled from the spec: primary name found with more text around it. -/
def SLAVE_PRIORITY_MATCH_LEFT : Nat := 3

/-- Modelled from the spec: candidate name equals the primary name. -/
def SLAVE_PRIORITY_MATCH_ALL : Nat := 4

/-! ### The sidecar relevance scorer (subtitles.c lines 358-383) -/

/-- The `i_prio` computation of `subtitles_Detect` lines 358-383, applied
to the already-normalized candidate name (`tmp_fname_trim`) and primary
name (`f_fname_trim`).  `inPrimaryDir` is the `j == -1` test of line 379:
only entries of the primary directory fall back to `MATCH_NONE`. -/
def scorePrio (candTrim primTrim : List Char) (inPrimaryDir : Bool) : Nat :=
  if candTrim = primTrim then SLAVE_PRIORITY_MATCH_ALL
  else
    match strstrSuffix candTrim primTrim with
    | some suf =>
      if whiteonly (suf.drop primTrim.length) then SLAVE_PRIORITY_MATCH_RIGHT
      else SLAVE_PRIORITY_MATCH_LEFT
    | none => if inPrimaryDir then SLAVE_PRIORITY_MATCH_NONE else SLAVE_PRIORITY_NONE

/-- The scorer applied to raw file names, mirroring how `subtitles_Detect`
produces its two normalized inputs (lines 324-325 and 354-356): strip the
extension, then `strcpy_trim`. -/
def scoreNames (candName primName : List Char) (inPrimaryDir : Bool) : Nat :=
  scorePrio (strcpy_trim (strcpy_strip_ext candName))
            (strcpy_trim (strcpy_strip_ext primName)) inPrimaryDir

/-! ### The sidecar collector (subtitles.c lines 276-416) -/

/-- The `subtitle` record of this excerpt (`subtitle_New`, lines 191-210).
`psz_path` is modelled as a plain string: `subtitle_New` fails instead of
ever storing a null path, so the defensive null test at line 422 of the
conflict pass cannot fire and has no counterpart here. -/
structure Subtitle where
  psz_path : List Char
  i_priority : Nat
  b_rejected : Bool
deriving DecidableEq, Repr

/-- One directory entry as delivered by `vlc_readdir` plus the result of
the `vlc_stat`/`S_ISREG` check the collector performs on its full path
(an external filesystem fact, supplied as data). -/
structure FsEntry where
  name : List Char
  isReg : Bool
deriving DecidableEq, Repr

/-- One directory scan: the directory path and the entries `vlc_readdir`
yields for it, in enumeration order. -/
structure DirScan where
  path : List Char
  entries : List FsEntry
deriving DecidableEq, Repr

/-- `DIR_SEP_CHAR` on the POSIX build. -/
def DIR_SEP_CHAR : Char := '/'

/-- Processing of one directory entry by the scan loop of
`subtitles_Detect` (lines 342-403): skip dot-names and non-subtitle
extensions, normalize, score, and emit a candidate when the priority
reaches the threshold, the path differs from the primary file's own path
and the entry is a regular file. -/
def collectEntry (i_fuzzy : Int) (primTrim primPath dirPath : List Char)
    (inPrimaryDir : Bool) (e : FsEntry) : Option Subtitle :=
  if e.name.headD nulChar = '.' || !subtitles_Filter e.name then none
  else
    let tmpTrim := strcpy_trim (strcpy_strip_ext e.name)
    let i_prio := scorePrio tmpTrim primTrim inPrimaryDir
    if (i_prio : Int) < i_fuzzy then none
    else
      let path := dirPath ++ DIR_SEP_CHAR :: e.name
      if path ≠ primPath ∧ e.isReg then some ⟨path, i_prio, false⟩ else none

/-- The whole scan of `subtitles_Detect` (the `j` loop, lines 328-406):
the primary directory first (`j == -1`), then each configured
subdirectory, skipping subdirectories whose path equals the primary
directory (line 331). -/
def collectAll (i_fuzzy : Int) (primTrim primPath : List Char)
    (primDir : DirScan) (subdirs : List DirScan) : List Subtitle :=
  primDir.entries.filterMap (collectEntry i_fuzzy primTrim primPath primDir.path true)
  ++ (subdirs.filter (fun d => d.path ≠ primDir.path)).flatMap
      (fun d => d.entries.filterMap (collectEntry i_fuzzy primTrim primPath d.path false))

/-- The candidate list `subtitles_Detect` appends to `p_result`, including
the `sub-autodetect-fuzzy == 0` short circuit of lines 279-281, which
returns before any directory is opened. -/
def collectorReturn (i_fuzzy : Int) (primName primPath : List Char)
    (primDir : DirScan) (subdirs : List DirScan) : List Subtitle :=
  if i_fuzzy = 0 then []
  else collectAll i_fuzzy (strcpy_trim (strcpy_strip_ext primName)) primPath primDir subdirs

/-! ### The conflict-resolution pass (subtitles.c lines 418-462) -/

/-- The inner scan of the `.sub`/`.idx` pairing rule (lines 435-455):
does some candidate path share the first `strlen(path) - 3` characters
case-insensitively and carry extension `idx`?  (Any path with extension
`sub` has at least 4 characters, so the `size_t` subtraction matches the
`Nat` one.) -/
def hasIdxPair (p : List Char) (paths : List (List Char)) : Bool :=
  paths.any (fun q =>
    strncaseeq p q (p.length - 3) &&
    (match extOf q with
     | some e => strcaseeq e ("idx".toList)
     | none => false))

/-- One iteration of the conflict pass (lines 420-461) for the candidate
`s`, scanning the path list of the whole collected set.  The inner loop's
condition tests the outer index `i` instead of `j`
(`for( int j = 0; i < p_result->i_subtitles; j++ )`, line 435), so it can
stop only via the `break` on a paired `.idx`: when a `.sub` candidate has
no paired `.idx`, `j` runs past the end of the array and the C program
reads out of bounds.  That undefined outcome is modelled as `none`. -/
def resolveStep (paths : List (List Char)) (s : Subtitle) : Option Subtitle :=
  match extOf s.psz_path with
  | none => some s
  | some e =>
    if strcaseeq e ("sub".toList) then
      if hasIdxPair s.psz_path paths then some { s with b_rejected := true }
      else none
    else if strcaseeq e ("cdg".toList) then
      if s.i_priority < SLAVE_PRIORITY_MATCH_ALL then some { s with b_rejected := true }
      else some s
    else some s

/-- The outer `i` loop of the conflict pass, against a fixed path list:
the pass mutates only `b_rejected` flags and its inner scans read only
paths, which no iteration changes. -/
def resolveAll (paths : List (List Char)) : List Subtitle → Option (List Subtitle)
  | [] => some []
  | s :: t =>
    match resolveStep paths s, resolveAll paths t with
    | some b, some bs => some (b :: bs)
    | _, _ => none

/-- The conflict-resolution pass over the collected list (lines 418-462):
process every candidate against the path list of the whole set; `none`
when any iteration runs out of bounds (see `resolveStep`). -/
def resolveConflicts (l : List Subtitle) : Option (List Subtitle) :=
  resolveAll (l.map (fun s => s.psz_path)) l

/-- Failure modes of `subtitles_Detect` as modelled here. -/
inductive DetectErr where
  | egeneric : DetectErr
  | overrun : DetectErr
deriving DecidableEq, Repr

/-- `subtitles_Detect` (lines 276-464) over an abstract filesystem: the
fuzzy==0 short circuit, then collection, then the conflict pass.
`primName` is the base name `f_fname`, `primPath` the full `psz_fname`. -/
def subtitles_DetectModel (i_fuzzy : Int) (primName primPath : List Char)
    (primDir : DirScan) (subdirs : List DirScan) : Except DetectErr (List Subtitle) :=
  if i_fuzzy = 0 then .error .egeneric
  else
    match resolveConflicts (collectAll i_fuzzy (strcpy_trim (strcpy_strip_ext primName))
        primPath primDir subdirs) with
    | some l => .ok l
    | none => .error .overrun

/-! ### directory.c: extension tables and `is_slave` -/

/-- `ppsz_sub_exts` from `directory.c` lines 49-59: the same 23 subtitle
extensions as `sub_exts` in `subtitles.c`. -/
def ppsz_sub_exts : List (List Char) := sub_exts

/-- `ppsz_audio_exts` from `directory.c` lines 61-64. -/
def ppsz_audio_exts : List (List Char) := ["ac3".toList]

/-- Modelled from the spec: the `SLAVE_TYPE_SPU` constant comes from a VLC
header not in the excerpt; only its identity is used. -/
def SLAVE_TYPE_SPU : Nat := 0

/-- Modelled from the spec: the `SLAVE_TYPE_AUDIO` constant comes from a
VLC header not in the excerpt; only its identity is used. -/
def SLAVE_TYPE_AUDIO : Nat := 1

/-- `is_slave` from `directory.c` lines 140-163: extract the extension,
reject a missing or empty one, then search the two tables in order with
`strncasecmp( psz_ext, *ppsz_slave_ext, i_extlen )` — a comparison
bounded by the length of the *candidate's* extension, which succeeds
whenever that extension is a case-insensitive prefix of a table entry. -/
def is_slave (psz_name : List Char) : Option Nat :=
  match extOf psz_name with
  | none => none
  | some ext =>
    if ext.length = 0 then none
    else if ppsz_sub_exts.any (fun e => strncaseeq ext e ext.length) then some SLAVE_TYPE_SPU
    else if ppsz_audio_exts.any (fun e => strncaseeq ext e ext.length) then some SLAVE_TYPE_AUDIO
    else none

/-- Modelled from the spec (§4.2): the extension classifier as the spec
words it — a case-insensitive *whole-extension* lookup against the two
fixed tables, subtitle table first.  Stated separately so the embedded
`is_slave` and `subtitles_Filter` can be compared against it. -/
def classify_spec (psz_name : List Char) : Option Nat :=
  match extOf psz_name with
  | none => none
  | some ext =>
    if ext = [] then none
    else if ppsz_sub_exts.any (fun e => strcaseeq ext e) then some SLAVE_TYPE_SPU
    else if ppsz_audio_exts.any (fun e => strcaseeq ext e) then some SLAVE_TYPE_AUDIO
    else none

/-! ### directory.c: the batch scorer -/

/-- Trailing-space trim of `name_from_uri` lines 224-227.  (The C loop
tests `psz_ptr[i] == ' '` before `i >= 0`; the stray one-byte read when
`i` reaches `-1` lands on the preceding `'/'` or `'.'` of the URI copy
and never alters the result.) -/
def dropTrailingSpaces (s : List Char) : List Char :=
  (s.reverse.dropWhile (fun c => c = ' ')).reverse

/-- The suffix after the last `'/'`, or the whole string without one. -/
def afterLastSlashAux : List Char → Option (List Char)
  | [] => none
  | c :: rest =>
    match afterLastSlashAux rest with
    | some t => some t
    | none => if c = '/' then some rest else none

/-- `name_from_uri` lines 210-213: keep only the part after the last
slash. -/
def afterLastSlash (s : List Char) : List Char :=
  match afterLastSlashAux s with
  | none => s
  | some t => t

/-- `name_from_uri` from `directory.c` lines 202-240: drop the folders,
cut at the last dot, strip leading and trailing spaces, lower-case.
(The `strdup` failure path returning NULL is an allocation failure and is
not modelled.) -/
def name_from_uri (psz_uri : List Char) : List Char :=
  let p1 := afterLastSlash psz_uri
  let p2 := match noExtOf p1 with
            | none => p1
            | some pre => pre
  let p3 := p2.dropWhile (fun c => c = ' ')
  (dropTrailingSpaces p3).map tolowerA

/-- `calculate_slave_priority` from `directory.c` lines 242-282, as a
function of the two URIs (the C function stores the result into
`p_slave->i_priority` and returns it).  Note the `MATCH_RIGHT` test at
line 266: the *tail must be empty* (`strlen(psz_sub + strlen(item)) == 0`),
unlike the sidecar scorer's `whiteonly` test. -/
def calculate_slave_priority (itemUri slaveUri : List Char) : Nat :=
  let psz_item_name := name_from_uri itemUri
  let psz_slave_name := name_from_uri slaveUri
  if psz_item_name = psz_slave_name then SLAVE_PRIORITY_MATCH_ALL
  else
    match strstrSuffix psz_slave_name psz_item_name with
    | some psz_sub =>
      if psz_sub.drop psz_item_name.length = [] then SLAVE_PRIORITY_MATCH_RIGHT
      else SLAVE_PRIORITY_MATCH_LEFT
    | none => SLAVE_PRIORITY_MATCH_NONE

/-! ### directory.c: Demux-side structures -/

/-- The fields of `input_item_t` this excerpt reads. -/
structure InputItem where
  psz_name : List Char
  psz_uri : List Char
  i_type : Nat
deriving DecidableEq, Repr

/-- The fields of `input_item_slave` this excerpt reads or writes. -/
structure InputItemSlave where
  psz_uri : List Char
  i_type : Nat
  i_priority : Nat
deriving DecidableEq, Repr

/-- `attach_slaves` from `directory.c` lines 284-302, value-level: with a
zero threshold it returns before touching any child or slave; otherwise
each child receives the slaves whose computed priority reaches the
threshold (below-threshold slaves are deleted, i.e. not attached). -/
def attach_slaves (i_fuzzy : Int) (children : List InputItem)
    (slaves : List InputItemSlave) : List (InputItem × List InputItemSlave) :=
  if i_fuzzy = 0 then children.map (fun c => (c, []))
  else children.map (fun c =>
    (c, slaves.filterMap (fun s =>
      let prio := calculate_slave_priority c.psz_uri s.psz_uri
      if (prio : Int) ≥ i_fuzzy then some { s with i_priority := prio } else none)))

/-- The skip test of `Demux` lines 345-351: empty names, `"."`, `".."`,
and — only when hidden files are not shown — any name beginning with
`'.'`. -/
def demuxSkip (b_show_hiddenfiles : Bool) (name : List Char) : Bool :=
  name.length = 0 || name = ".".toList || name = "..".toList ||
  (!b_show_hiddenfiles && name.headD nulChar = '.')

/-- The slave-collection decision of `Demux` lines 343-365: an entry that
survives the skip test and has a slave extension is collected as a slave
of that type (the ignored-extension test at line 368 runs only after, on
non-slaves). -/
def demuxCollectsSlave (b_show_hiddenfiles : Bool) (name : List Char) : Option Nat :=
  if demuxSkip b_show_hiddenfiles name then none else is_slave name

/-! ### directory.c: the sorters -/

/-- Modelled from the spec: `ITEM_TYPE_DIRECTORY` comes from a VLC header
not in the excerpt; only equality against it is used. -/
def ITEM_TYPE_DIRECTORY : Nat := 2

/-- Modelled from the spec: the item type of an ordinary file. -/
def ITEM_TYPE_FILE : Nat := 1

/-- `compar_type` from `directory.c` lines 165-175: directories order
before every other item type. -/
def compar_type (p1 p2 : InputItem) : Int :=
  if p1.i_type ≠ p2.i_type then
    if p1.i_type = ITEM_TYPE_DIRECTORY then -1
    else if p2.i_type = ITEM_TYPE_DIRECTORY then 1
    else 0
  else 0

/-- The digit-run length comparison of `strverscmp` once the strings
differ inside a zero-free digit run: the longer run of digits is the
larger number (the runs agree on their common prefix up to the first
difference, which already fixed `diff`). -/
def svcLen : List Char → List Char → Int → Int
  | [], r, diff => if isdigitA (r.headD nulChar) then -1 else diff
  | c :: l, r, diff =>
    if isdigitA c then
      if !isdigitA (r.headD nulChar) then 1 else svcLen l r.tail diff
    else if isdigitA (r.headD nulChar) then -1 else diff

/-- The action of `strverscmp` at the first differing byte pair
`c1`/`c2`: if the digit run surrounding the difference did not begin with
`'0'` (its first character within the common prefix is `rs`, or the
differing bytes themselves when the run starts there), the longer digit
run wins via `svcLen`; otherwise (including the all-zero "fractional"
case, which the C code writes as `(l[i]-'0') - (r[i]-'0')`) the byte
difference decides. -/
def svcMismatch (rs : Option Char) (c1 c2 : Char) (l r : List Char) : Int :=
  let zeroFree : Bool :=
    match rs with
    | some c0 => c0 != '0'
    | none => (c1 != '0') && (c2 != '0')
  if zeroFree then svcLen l r ((c1.toNat : Int) - (c2.toNat : Int))
  else (c1.toNat : Int) - (c2.toNat : Int)

/-- `strverscmp` scan once the left string is exhausted: the left byte is
the NUL terminator, which is not a digit, so the run state resets while
bytes still compare equal. -/
def svcGoNil (rs : Option Char) : List Char → Int
  | [] => 0
  | b :: r =>
    if nulChar = b then svcGoNil none r
    else svcMismatch rs nulChar b [] (b :: r)

/-- Modelled from the spec: `strverscmp` is provided by the C library,
not by this repository.  This follows the documented GNU behaviour (in
the compact shape of the musl implementation): scan the common prefix,
tracking in `rs` the first character of the digit run containing the
current position (or `none` when the previous byte was not a digit) and
in `z` whether that run is all zeros so far; at the first difference,
decide via `svcMismatch`. -/
def svcGo (rs : Option Char) (z : Bool) : List Char → List Char → Int
  | [], r => svcGoNil rs r
  | a :: l, r =>
    let c2 := r.headD nulChar
    if a = c2 then
      svcGo (if isdigitA a then some (rs.getD a) else none)
            (if isdigitA a then z && (a == '0') else true) l r.tail
    else svcMismatch rs a c2 (a :: l) r

/-- Modelled from the spec: C library `strverscmp`, see `svcGo`. -/
def strverscmp (l r : List Char) : Int := svcGo none true l r

/-- `compar_version` from `directory.c` lines 192-200: type order first,
then the version-aware name comparison. -/
def compar_version (p1 p2 : InputItem) : Int :=
  let r := compar_type p1 p2
  if r ≠ 0 then r else strverscmp p1.psz_name p2.psz_name

/-- The comparator `Demux` lines 391-406 select. -/
inductive SortSel where
  | version : SortSel
  | collate : SortSel
  | nosort : SortSel
deriving DecidableEq, Repr

/-- The `directory-sort` dispatch of `Demux` lines 393-402: a NULL string
leaves the callback NULL; `"version"` (case-insensitive) selects
`compar_version`; any other value except `"none"` selects
`compar_collate`; `"none"` leaves the callback NULL and no sort runs. -/
def chooseCompar (psz_sort : Option (List Char)) : SortSel :=
  match psz_sort with
  | none => SortSel.nosort
  | some m =>
    if strcaseeq m ("version".toList) then SortSel.version
    else if !strcaseeq m ("none".toList) then SortSel.collate
    else SortSel.nosort

/-- A list ordered consistently with a C `qsort` comparator: every
earlier element compares `<= 0` against every later one. -/
def nodeSorted (cmp : InputItem → InputItem → Int) (l : List InputItem) : Prop :=
  l.Pairwise (fun a b => cmp a b ≤ 0)

/-- Modelled from the spec: `input_item_node_Sort` is repository code not
in the excerpt (only its call at `Demux` line 405 is).  Per the spec's
sorter contract it reorders the children into an order sorted by the
selected comparator; `collate` additionally depends on the runtime
locale (`strcoll`), so only the permutation is specified for it.  The
whole phase runs only when the stream is not already sorted, and with a
NULL callback the children are left untouched. -/
def sortPhase (b_dir_sorted : Bool) (psz_sort : Option (List Char))
    (inp out : List InputItem) : Prop :=
  if b_dir_sorted then out = inp
  else
    match chooseCompar psz_sort with
    | SortSel.nosort => out = inp
    | SortSel.version => inp.Perm out ∧ nodeSorted compar_version out
    | SortSel.collate => inp.Perm out

/-! ## Helper lemmas -/

theorem lowAl_tolowerA {c : Char} (h : isalnumA c = true) : lowAl (tolowerA c) = true := by
  unfold tolowerA
  split
  all_goals first
    | decide
    | (simp [lowAl, h]; unfold tolowerA; split <;> simp_all)

theorem isalnumA_of_lowAl {c : Char} (h : lowAl c = true) : isalnumA c = true := by
  simp [lowAl] at h; exact h.1

theorem tolowerA_of_lowAl {c : Char} (h : lowAl c = true) : tolowerA c = c := by
  simp [lowAl] at h; exact h.2

theorem lowAl_space : lowAl ' ' = false := by decide

theorem isalnumA_space : isalnumA ' ' = false := by decide

theorem strstrSuffix_nil_needle (hay : List Char) : strstrSuffix hay [] = some hay := by
  unfold strstrSuffix
  simp [List.isPrefixOf]

theorem strcaseeq_comm (a b : List Char) : strcaseeq a b = strcaseeq b a := by
  simp [strcaseeq, eq_comm]

/-- `joinWords` with an explicitly split first word. -/
theorem joinWords_cons (w : List Char) (ws : List (List Char)) :
    joinWords (w :: ws) = w ++ (if ws = [] then [] else ' ' :: joinWords ws) := by
  cases ws <;> simp [joinWords]

theorem AllWords_cons {w : List Char} {ws : List (List Char)}
    (hw : w ≠ []) (hc : ∀ c ∈ w, lowAl c = true) (hws : AllWords ws) :
    AllWords (w :: ws) := by
  intro x hx
  rw [List.mem_cons] at hx
  rcases hx with rfl | hx
  · exact ⟨hw, hc⟩
  · exact hws x hx

theorem trimGo_false_sep (s : List Char) (sp : Bool) :
    trimGo false sp s = trimGo false false s := by
  cases s with
  | nil => rfl
  | cons c r => simp [trimGo]

/-- Structure of every `trimGo` output, for the three reachable flag
states: starting fresh the output is a join of well-formed words;
mid-word it is a (possibly empty) word remainder followed by further
separated words; after a separator mid-word it is either empty or a
space followed by the joined remaining words. -/
theorem trimGo_shape (s : List Char) :
    (∃ ws, AllWords ws ∧ trimGo false false s = joinWords ws) ∧
    (∃ w ws, (∀ c ∈ w, lowAl c = true) ∧ AllWords ws ∧
      trimGo true false s = w ++ (if ws = [] then [] else ' ' :: joinWords ws)) ∧
    (∃ ws, AllWords ws ∧
      trimGo true true s = (if ws = [] then [] else ' ' :: joinWords ws)) := by
  induction s with
  | nil =>
    refine ⟨⟨[], ?_, rfl⟩, ⟨[], [], by simp, ?_, rfl⟩, ⟨[], ?_, rfl⟩⟩ <;>
      simp [AllWords]
  | cons c r ih =>
    obtain ⟨⟨ws1, hws1, h1⟩, ⟨w2, ws2, hw2, hws2, h2⟩, ⟨ws3, hws3, h3⟩⟩ := ih
    by_cases hc : isalnumA c = true
    · have hlow : lowAl (tolowerA c) = true := lowAl_tolowerA hc
      have hchars : ∀ x ∈ tolowerA c :: w2, lowAl x = true := by
        intro x hx
        rw [List.mem_cons] at hx
        rcases hx with rfl | hx
        · exact hlow
        · exact hw2 x hx
      have hall : AllWords ((tolowerA c :: w2) :: ws2) :=
        AllWords_cons (by simp) hchars hws2
      have hmid : trimGo true false (c :: r) =
          (tolowerA c :: w2) ++ (if ws2 = [] then [] else ' ' :: joinWords ws2) := by
        simp [trimGo, hc, h2]
      refine ⟨⟨(tolowerA c :: w2) :: ws2, hall, ?_⟩,
              ⟨tolowerA c :: w2, ws2, hchars, hws2, hmid⟩,
              ⟨(tolowerA c :: w2) :: ws2, hall, ?_⟩⟩
      · rw [joinWords_cons]
        simp [trimGo, hc, h2]
      · rw [if_neg (by simp), joinWords_cons]
        simp [trimGo, hc, h2]
    · have hc' : isalnumA c = false := by simpa using hc
      refine ⟨⟨ws1, hws1, ?_⟩, ⟨[], ws3, by simp, hws3, ?_⟩, ⟨ws3, hws3, ?_⟩⟩
      · calc trimGo false false (c :: r) = trimGo false true r := by simp [trimGo, hc']
          _ = trimGo false false r := trimGo_false_sep r true
          _ = joinWords ws1 := h1
      · simpa [trimGo, hc'] using h3
      · simpa [trimGo, hc'] using h3

theorem strcpy_trim_shape (s : List Char) :
    ∃ ws, AllWords ws ∧ strcpy_trim s = joinWords ws :=
  (trimGo_shape s).1

theorem trimGo_word_mid (w rest : List Char) (h : ∀ c ∈ w, lowAl c = true) :
    trimGo true false (w ++ rest) = w ++ trimGo true false rest := by
  induction w with
  | nil => simp
  | cons x w' ih =>
    have hx : lowAl x = true := h x (by simp)
    have ha : isalnumA x = true := isalnumA_of_lowAl hx
    have ht : tolowerA x = x := tolowerA_of_lowAl hx
    have ih' := ih (fun c hc => h c (by simp [hc]))
    simp [trimGo, ha, ht, ih']

theorem trimGo_word_start (w rest : List Char) (hne : w ≠ [])
    (h : ∀ c ∈ w, lowAl c = true) :
    trimGo false false (w ++ rest) = w ++ trimGo true false rest ∧
    trimGo true true (w ++ rest) = ' ' :: (w ++ trimGo true false rest) := by
  cases w with
  | nil => exact absurd rfl hne
  | cons x w' =>
    have hx : lowAl x = true := h x (by simp)
    have ha : isalnumA x = true := isalnumA_of_lowAl hx
    have ht : tolowerA x = x := tolowerA_of_lowAl hx
    have hmid := trimGo_word_mid w' rest (fun c hc => h c (by simp [hc]))
    constructor <;> simp [trimGo, ha, ht, hmid]

theorem strcpy_trim_fixed (ws : List (List Char)) (h : AllWords ws) :
    strcpy_trim (joinWords ws) = joinWords ws := by
  induction ws with
  | nil => rfl
  | cons w ws' ih =>
    obtain ⟨hne, hch⟩ := h w (by simp)
    have hws' : AllWords ws' := fun x hx => h x (by simp [hx])
    rw [joinWords_cons]
    by_cases hn : ws' = []
    · subst hn
      simp only [if_pos rfl, List.append_nil]
      have := (trimGo_word_start w [] hne hch).1
      simpa [strcpy_trim, trimGo] using this
    · rw [if_neg hn]
      have hstep := (trimGo_word_start w (' ' :: joinWords ws') hne hch).1
      have hsep : trimGo true false (' ' :: joinWords ws') =
          trimGo true true (joinWords ws') := by
        simp [trimGo, isalnumA_space]
      cases ws' with
      | nil => exact absurd rfl hn
      | cons w2 t' =>
        obtain ⟨hne2, hch2⟩ := hws' w2 (by simp)
        have hws'' : AllWords t' := fun x hx => hws' x (by simp [hx])
        have hjoin2 : joinWords (w2 :: t') =
            w2 ++ (if t' = [] then [] else ' ' :: joinWords t') := joinWords_cons w2 t'
        have hstart2 := trimGo_word_start w2
            (if t' = [] then [] else ' ' :: joinWords t') hne2 hch2
        have htt : trimGo true true (joinWords (w2 :: t')) =
            ' ' :: trimGo false false (joinWords (w2 :: t')) := by
          rw [hjoin2, hstart2.2, hstart2.1]
        have hihe : trimGo false false (joinWords (w2 :: t')) = joinWords (w2 :: t') := by
          simpa [strcpy_trim] using ih hws'
        show trimGo false false (w ++ ' ' :: joinWords (w2 :: t')) =
            w ++ ' ' :: joinWords (w2 :: t')
        rw [hstep, hsep, htt, hihe]

theorem strcpy_trim_idem (s : List Char) :
    strcpy_trim (strcpy_trim s) = strcpy_trim s := by
  obtain ⟨ws, hws, h⟩ := strcpy_trim_shape s
  rw [h]
  exact strcpy_trim_fixed ws hws

theorem whiteonly_trim_ne_nil (s : List Char) (h : strcpy_trim s ≠ []) :
    whiteonly (strcpy_trim s) = false := by
  obtain ⟨ws, hws, he⟩ := strcpy_trim_shape s
  rw [he] at h ⊢
  cases ws with
  | nil => simp [joinWords] at h
  | cons w ws' =>
    obtain ⟨hne, hch⟩ := hws w (by simp)
    cases w with
    | nil => exact absurd rfl hne
    | cons x w' =>
      have ha : isalnumA x = true := isalnumA_of_lowAl (hch x (by simp))
      rw [joinWords_cons]
      simp [whiteonly, ha]

theorem strcaseeq_nil_right {e : List Char} (h : e ≠ []) : strcaseeq e [] = false := by
  simp [strcaseeq, h]

theorem strncaseeq_of_strcaseeq {a b : List Char} (h : strcaseeq a b = true) :
    strncaseeq a b a.length = true := by
  simp only [strcaseeq, decide_eq_true_eq] at h
  have hlen : a.length = b.length := by
    have := congrArg List.length h
    simpa using this
  simp only [strncaseeq, decide_eq_true_eq, List.take_length]
  rw [hlen, List.take_length]
  exact h

theorem resolveAll_forall₂ (paths : List (List Char)) :
    ∀ (l : List Subtitle) (l' : List Subtitle), resolveAll paths l = some l' →
      List.Forall₂ (fun a b => resolveStep paths a = some b) l l' := by
  intro l
  induction l with
  | nil =>
    intro l' h
    simp [resolveAll] at h
    subst h
    exact List.Forall₂.nil
  | cons a t ih =>
    intro l' h
    rw [resolveAll] at h
    cases hf : resolveStep paths a with
    | none => simp [hf] at h
    | some b =>
      cases ht : resolveAll paths t with
      | none => simp [hf, ht] at h
      | some ts =>
        simp [hf, ht] at h
        subst h
        exact List.Forall₂.cons hf (ih ts ht)

theorem filterMap_mono {α β : Type} (f g : α → Option β)
    (hfg : ∀ a b, f a = some b → g a = some b) :
    ∀ l : List α, (l.filterMap f).Sublist (l.filterMap g) := by
  intro l
  induction l with
  | nil => simp
  | cons a t ih =>
    rw [List.filterMap_cons, List.filterMap_cons]
    cases hf : f a with
    | none =>
      cases hg : g a with
      | none => exact ih
      | some c => exact ih.cons c
    | some b =>
      rw [hfg a b hf]
      exact ih.cons₂ b

/-! ## Claim theorems -/

/-- C7: the name normalizer `strcpy_trim` is idempotent; every output is
a join of nonempty lower-case alphanumeric words separated by single
interior spaces (hence no leading or trailing space and no double
space); and every string of that shape is a fixed point of the
normalizer. -/
theorem C7_normalizer_idempotent :
    (∀ s, strcpy_trim (strcpy_trim s) = strcpy_trim s) ∧
    (∀ s, ∃ ws, AllWords ws ∧ strcpy_trim s = joinWords ws) ∧
    (∀ ws, AllWords ws → strcpy_trim (joinWords ws) = joinWords ws) :=
  ⟨strcpy_trim_idem, strcpy_trim_shape, strcpy_trim_fixed⟩

/-- Witness for C7 at a concrete normalized string. -/
theorem C7_normalizer_idempotent_witness :
    strcpy_trim (joinWords [['m','o','v','i','e'], ['2','0','0','9']]) =
      joinWords [['m','o','v','i','e'], ['2','0','0','9']] :=
  C7_normalizer_idempotent.2.2 _ (by decide)

/-- C2 counterexample: the primary name `....avi` normalizes to the empty
string, yet the candidate `anything.srt` is scored `MatchLeft` — the code
has no special case for an empty primary name, `strstr` succeeds
immediately and the whole candidate name is the (alphanumeric) tail.  The
claim says an empty primary name never yields `MatchLeft`. -/
theorem C2_counterexample :
    strcpy_trim (strcpy_strip_ext ("....avi".toList)) = [] ∧
    scoreNames ("anything.srt".toList) ("....avi".toList) true =
      SLAVE_PRIORITY_MATCH_LEFT := by
  decide

/-- C2 (amended): when the primary's normalized name is empty, both
scorers return `MatchAll` exactly on an empty normalized candidate name
and `MatchLeft` on every other candidate; the not-found branches are
never reached. -/
theorem C2_empty_primary :
    (∀ candName primName (d : Bool), strcpy_trim (strcpy_strip_ext primName) = [] →
      scoreNames candName primName d =
        (if strcpy_trim (strcpy_strip_ext candName) = [] then SLAVE_PRIORITY_MATCH_ALL
         else SLAVE_PRIORITY_MATCH_LEFT)) ∧
    (∀ itemUri slaveUri, name_from_uri itemUri = [] →
      calculate_slave_priority itemUri slaveUri =
        (if name_from_uri slaveUri = [] then SLAVE_PRIORITY_MATCH_ALL
         else SLAVE_PRIORITY_MATCH_LEFT)) := by
  constructor
  · intro candName primName d hp
    unfold scoreNames
    rw [hp]
    by_cases hc : strcpy_trim (strcpy_strip_ext candName) = []
    · simp [scorePrio, hc]
    · have hw := whiteonly_trim_ne_nil (strcpy_strip_ext candName) hc
      simp [scorePrio, hc, strstrSuffix_nil_needle, hw]
  · intro itemUri slaveUri h
    by_cases hs : name_from_uri slaveUri = []
    · simp [calculate_slave_priority, h, hs]
    · have hne : ¬ ([] : List Char) = name_from_uri slaveUri := fun he => hs he.symm
      simp [calculate_slave_priority, h, hs, hne, strstrSuffix_nil_needle]

/-- Witness for C2 at concrete inputs: primary `...` normalizes to blank,
candidate `x.srt` scores `MatchLeft`, empty-named candidate `.` scores
`MatchAll`. -/
theorem C2_empty_primary_witness :
    scoreNames ("x.srt".toList) ("...".toList) true = SLAVE_PRIORITY_MATCH_LEFT ∧
    calculate_slave_priority ("file:///d/.avi".toList) ("file:///d/-x-.srt".toList) =
      SLAVE_PRIORITY_MATCH_LEFT :=
  ⟨(C2_empty_primary.1 ("x.srt".toList) ("...".toList) true (by decide)).trans (by decide),
   (C2_empty_primary.2 ("file:///d/.avi".toList) ("file:///d/-x-.srt".toList)
      (by decide)).trans (by decide)⟩

/-- C1 counterexample: with primary name `movie.avi`, the candidate
`movie (2009).srt` is *not* scored `MatchRight`: the year digits are
alphanumeric, so the tail ` 2009` after the occurrence fails `whiteonly`
and the score is `MatchLeft`. -/
theorem C1_counterexample :
    scoreNames ("movie (2009).srt".toList) ("movie.avi".toList) true ≠
      SLAVE_PRIORITY_MATCH_RIGHT := by
  decide

/-- C1 (amended): `N (2009).ext` and `Part1 - N - CD2.ext` both score
`MatchLeft` (the year digits are alphanumeric).  In the sidecar scorer,
when the normalized primary name occurs in the normalized candidate name
(and they are not equal), the score is `MatchRight` exactly when the tail
after the *first* occurrence contains no alphanumeric character, else
`MatchLeft`; the directory scorer instead tests that the tail after the
first occurrence is *empty*. -/
theorem C1_decoration_scoring :
    scoreNames ("movie (2009).srt".toList) ("movie.avi".toList) true =
      SLAVE_PRIORITY_MATCH_LEFT ∧
    scoreNames ("Part1 - movie - CD2.srt".toList) ("movie.avi".toList) true =
      SLAVE_PRIORITY_MATCH_LEFT ∧
    (∀ (candTrim primTrim : List Char) (d : Bool) (suf : List Char),
      candTrim ≠ primTrim → strstrSuffix candTrim primTrim = some suf →
      scorePrio candTrim primTrim d =
        (if whiteonly (suf.drop primTrim.length) then SLAVE_PRIORITY_MATCH_RIGHT
         else SLAVE_PRIORITY_MATCH_LEFT)) ∧
    (∀ itemUri slaveUri suf,
      name_from_uri itemUri ≠ name_from_uri slaveUri →
      strstrSuffix (name_from_uri slaveUri) (name_from_uri itemUri) = some suf →
      calculate_slave_priority itemUri slaveUri =
        (if suf.drop (name_from_uri itemUri).length = [] then SLAVE_PRIORITY_MATCH_RIGHT
         else SLAVE_PRIORITY_MATCH_LEFT)) := by
  refine ⟨by decide, by decide, ?_, ?_⟩
  · intro candTrim primTrim d suf hne hocc
    unfold scorePrio
    rw [if_neg hne, hocc]
  · intro itemUri slaveUri suf hne hocc
    unfold calculate_slave_priority
    rw [if_neg hne, hocc]

/-- Witness for C1: a candidate whose normalized name ends with the
primary name scores `MatchRight` in both scorers. -/
theorem C1_decoration_scoring_witness :
    scorePrio ("the movie".toList) ("movie".toList) true = SLAVE_PRIORITY_MATCH_RIGHT ∧
    calculate_slave_priority ("file:///d/movie.avi".toList)
      ("file:///d/the movie.srt".toList) = SLAVE_PRIORITY_MATCH_RIGHT :=
  ⟨(C1_decoration_scoring.2.2.1 ("the movie".toList) ("movie".toList) true
      ("movie".toList) (by decide) (by decide)).trans (by decide),
   (C1_decoration_scoring.2.2.2 ("file:///d/movie.avi".toList)
      ("file:///d/the movie.srt".toList) ("movie".toList) (by decide) (by decide)).trans
      (by decide)⟩

/-- C3 counterexample: the extension `s` is a strict prefix of the listed
extension `sub`, and `is_slave` *does* classify `file.s` as a companion
(SPU), because its `strncasecmp` is bounded by the candidate extension's
own length; the spec-worded exact lookup rejects it. -/
theorem C3_counterexample :
    is_slave ("file.s".toList) = some SLAVE_TYPE_SPU ∧
    classify_spec ("file.s".toList) = none := by
  decide

/-- C3 (amended): the sidecar filter `subtitles_Filter` implements the
spec's exact case-insensitive lookup (it accepts exactly the names the
spec classifier maps to the subtitle kind); every extension the spec
classifier accepts is also accepted by `is_slave` with the same kind; but
`is_slave` accepts *more*: exactly the names whose nonempty extension is
a case-insensitive prefix of some entry of the two tables; and names with
no dot or an empty extension are companions for neither. -/
theorem C3_extension_classifier :
    (∀ name, subtitles_Filter name = true ↔ classify_spec name = some SLAVE_TYPE_SPU) ∧
    (∀ name t, classify_spec name = some t → is_slave name = some t) ∧
    (∀ name, is_slave name ≠ none ↔
      (∃ ext, extOf name = some ext ∧ ext ≠ [] ∧
        ∃ e ∈ ppsz_sub_exts ++ ppsz_audio_exts, strncaseeq ext e ext.length = true)) ∧
    (∀ name, extOf name = none ∨ extOf name = some [] →
      subtitles_Filter name = false ∧ is_slave name = none ∧ classify_spec name = none) := by
  refine ⟨?_, ?_, ?_, ?_⟩
  · intro name
    cases hx : extOf name with
    | none => simp [subtitles_Filter, classify_spec, hx]
    | some ext =>
      by_cases hed : ext = []
      · subst hed
        simp only [subtitles_Filter, classify_spec, hx, if_pos rfl]
        constructor
        · intro h
          exact absurd h (by decide)
        · intro h
          simp at h
      · simp only [subtitles_Filter, classify_spec, hx, if_neg hed]
        have hcomm : ((sub_exts.any fun e => strcaseeq e ext) = true) ↔
            ((sub_exts.any fun e => strcaseeq ext e) = true) := by
          rw [List.any_eq_true, List.any_eq_true]
          exact exists_congr fun e =>
            and_congr_right fun _ => by rw [strcaseeq_comm]
        by_cases hsub : (sub_exts.any fun e => strcaseeq ext e) = true
        · rw [show ppsz_sub_exts = sub_exts from rfl, if_pos hsub]
          simp only [hcomm, hsub]
        · rw [show ppsz_sub_exts = sub_exts from rfl, if_neg hsub]
          have hsub' : (sub_exts.any fun e => strcaseeq e ext) ≠ true := fun hh =>
            hsub (hcomm.mp hh)
          constructor
          · intro h
            exact absurd h hsub'
          · intro h
            by_cases haud : (ppsz_audio_exts.any fun e => strcaseeq ext e) = true
            · rw [if_pos haud] at h
              exact absurd (Option.some.inj h) (by decide)
            · rw [if_neg haud] at h
              exact absurd h (by simp)
  · intro name t h
    cases hx : extOf name with
    | none => simp [classify_spec, hx] at h
    | some ext =>
      by_cases hed : ext = []
      · subst hed
        simp [classify_spec, hx] at h
      · simp only [classify_spec, hx, if_neg hed] at h
        have hlen : ext.length ≠ 0 := fun hz => hed (List.length_eq_zero.mp hz)
        by_cases hsub : (ppsz_sub_exts.any fun e => strcaseeq ext e) = true
        · rw [if_pos hsub] at h
          obtain ⟨e, he, heq⟩ := List.any_eq_true.mp hsub
          have hpre : (ppsz_sub_exts.any fun e => strncaseeq ext e ext.length) = true :=
            List.any_eq_true.mpr ⟨e, he, strncaseeq_of_strcaseeq heq⟩
          simp only [is_slave, hx, if_neg hlen, hpre, if_true]
          exact h
        · rw [if_neg hsub] at h
          by_cases haud : (ppsz_audio_exts.any fun e => strcaseeq ext e) = true
          · rw [if_pos haud] at h
            obtain ⟨e, he, heq⟩ := List.any_eq_true.mp haud
            have he3 : e = "ac3".toList := by
              simpa [ppsz_audio_exts] using he
            subst he3
            have hmap : ext.map tolowerA = "ac3".toList := by
              simpa [strcaseeq] using heq
            have hlen3 : ext.length = 3 := by
              have := congrArg List.length hmap
              simpa using this
            have hnosub : (ppsz_sub_exts.any fun e => strncaseeq ext e ext.length) = false := by
              rw [List.any_eq_false]
              intro e he'
              have hconc : ∀ x ∈ sub_exts, ¬ ((x.take 3).map tolowerA = "ac3".toList) := by
                decide
              intro hc
              apply hconc e he'
              rw [hlen3] at hc
              simp only [strncaseeq, decide_eq_true_eq] at hc
              calc (e.take 3).map tolowerA = (ext.take 3).map tolowerA := hc.symm
                _ = ext.map tolowerA := by rw [← hlen3, List.take_length]
                _ = "ac3".toList := hmap
            have hpre : (ppsz_audio_exts.any fun e => strncaseeq ext e ext.length) = true :=
              List.any_eq_true.mpr ⟨"ac3".toList, by simp [ppsz_audio_exts],
                strncaseeq_of_strcaseeq heq⟩
            simp only [is_slave, hx, if_neg hlen, hnosub, if_false, hpre, if_true]
            simpa using h
          · rw [if_neg haud] at h
            simp at h
  · intro name
    cases hx : extOf name with
    | none => simp [is_slave, hx]
    | some ext =>
      by_cases hed : ext = []
      · subst hed
        simp [is_slave, hx]
      · have hlen : ext.length ≠ 0 := fun hz => hed (List.length_eq_zero.mp hz)
        simp only [is_slave, hx, if_neg hlen]
        constructor
        · intro h
          by_cases hsub : (ppsz_sub_exts.any fun e => strncaseeq ext e ext.length) = true
          · obtain ⟨e, he, heq⟩ := List.any_eq_true.mp hsub
            exact ⟨ext, rfl, hed, e, List.mem_append_left _ he, heq⟩
          · by_cases haud : (ppsz_audio_exts.any fun e => strncaseeq ext e ext.length) = true
            · obtain ⟨e, he, heq⟩ := List.any_eq_true.mp haud
              exact ⟨ext, rfl, hed, e, List.mem_append_right _ he, heq⟩
            · rw [if_neg hsub, if_neg haud] at h
              exact absurd rfl h
        · rintro ⟨ext2, hx2, -, e, he, heq⟩
          obtain rfl : ext = ext2 := Option.some.inj hx2
          rw [List.mem_append] at he
          rcases he with he | he
          · have hsub : (ppsz_sub_exts.any fun e => strncaseeq ext e ext.length) = true :=
              List.any_eq_true.mpr ⟨e, he, heq⟩
            simp [hsub]
          · have haud : (ppsz_audio_exts.any fun e => strncaseeq ext e ext.length) = true :=
              List.any_eq_true.mpr ⟨e, he, heq⟩
            by_cases hsub : (ppsz_sub_exts.any fun e => strncaseeq ext e ext.length) = true
            · simp [hsub]
            · simp [hsub, haud]
  · intro name h
    rcases h with hx | hx
    · simp [subtitles_Filter, is_slave, classify_spec, hx]
    · refine ⟨?_, ?_, ?_⟩
      · simp only [subtitles_Filter, hx]
        decide
      · simp [is_slave, hx]
      · simp [classify_spec, hx]

/-- Witness for C3: an exact extension is accepted by `is_slave`, and a
dotless name is rejected by the sidecar filter. -/
theorem C3_extension_classifier_witness :
    is_slave ("file.IDX".toList) = some SLAVE_TYPE_SPU ∧
    subtitles_Filter ("noext".toList) = false :=
  ⟨C3_extension_classifier.2.1 ("file.IDX".toList) SLAVE_TYPE_SPU (by decide),
   (C3_extension_classifier.2.2.2 ("noext".toList) (by decide)).1⟩

/-- C4: evaluation of the conflict pass.  On the minimal pair the `.sub`
candidate is rejected and the `.idx` kept; but as soon as the collected
set also contains a `.sub` candidate with no paired `.idx` (here
`lonely.sub`), the inner scan's loop condition — which tests the outer
index `i` instead of `j` — never becomes false, the scan runs past the
end of the candidate array, and the pass has no defined result. -/
theorem C4_pairing_evaluation :
    resolveConflicts
      [⟨"d/movie.sub".toList, 2, false⟩, ⟨"d/movie.idx".toList, 2, false⟩] =
      some [⟨"d/movie.sub".toList, 2, true⟩, ⟨"d/movie.idx".toList, 2, false⟩] ∧
    resolveConflicts
      [⟨"d/movie.sub".toList, 2, false⟩, ⟨"d/movie.idx".toList, 2, false⟩,
       ⟨"d/lonely.sub".toList, 2, false⟩] = none := by
  decide

/-- C5: a zero minimum-priority threshold short-circuits both engines:
the sidecar detector returns `VLC_EGENERIC` before opening any directory
(the result is one constant, independent of every directory argument),
the collector returns the empty candidate list, and the batch attacher
returns every child unchanged with no slave attached, independent of the
slave list. -/
theorem C5_zero_threshold :
    (∀ primName primPath primDir subdirs,
      subtitles_DetectModel 0 primName primPath primDir subdirs =
        Except.error DetectErr.egeneric) ∧
    (∀ primName primPath primDir subdirs,
      collectorReturn 0 primName primPath primDir subdirs = []) ∧
    (∀ children slaves, attach_slaves 0 children slaves =
      children.map (fun c => (c, []))) := by
  refine ⟨?_, ?_, ?_⟩ <;> intros <;>
    simp [subtitles_DetectModel, collectorReturn, attach_slaves]

theorem collectEntry_mono {t1 t2 : Int} (h12 : t1 ≤ t2) (pt pp dp : List Char)
    (b : Bool) (e : FsEntry) (s : Subtitle)
    (h : collectEntry t2 pt pp dp b e = some s) :
    collectEntry t1 pt pp dp b e = some s := by
  simp only [collectEntry] at h ⊢
  split at h
  · exact absurd h (by simp)
  · rename_i hc1
    split at h
    · exact absurd h (by simp)
    · rename_i hc2
      rw [if_neg hc1]
      have hn : ¬ ((scorePrio (strcpy_trim (strcpy_strip_ext e.name)) pt b : Int) < t1) :=
        fun hlt => hc2 (lt_of_lt_of_le hlt h12)
      rw [if_neg hn]
      exact h

theorem collectAll_mono {t1 t2 : Int} (h12 : t1 ≤ t2) (pt pp : List Char)
    (pd : DirScan) (sds : List DirScan) :
    (collectAll t2 pt pp pd sds).Sublist (collectAll t1 pt pp pd sds) := by
  unfold collectAll
  refine List.Sublist.append ?_ ?_
  · exact filterMap_mono _ _ (fun a b hb => collectEntry_mono h12 _ _ _ _ a b hb) _
  · induction sds.filter (fun d => d.path ≠ pd.path) with
    | nil => simp
    | cons d t ih =>
      simp only [List.flatMap_cons]
      exact List.Sublist.append
        (filterMap_mono _ _ (fun a b hb => collectEntry_mono h12 _ _ _ _ a b hb) _) ih

/-- C6 counterexample: thresholds `t1 = 0 <= 1 = t2` on a one-entry scan:
the zero threshold disables discovery (0 candidates) while threshold 1
returns 1 candidate, so raising the threshold from 0 to 1 *increases*
the returned count. -/
theorem C6_counterexample :
    ¬ ((collectorReturn 1 ("movie.avi".toList) ("d/movie.avi".toList)
          ⟨"d".toList, [⟨"movie.srt".toList, true⟩]⟩ []).length ≤
       (collectorReturn 0 ("movie.avi".toList) ("d/movie.avi".toList)
          ⟨"d".toList, [⟨"movie.srt".toList, true⟩]⟩ []).length) := by
  decide

/-- C6 (amended): for thresholds `t1 <= t2` with `t1 ≠ 0`, the collector
returns at most as many candidates at `t2` as at `t1` (each entry emitted
at the higher threshold is emitted unchanged at the lower one); the
monotonicity fails only across the `0` short circuit. -/
theorem C6_threshold_monotone :
    ∀ primName primPath primDir subdirs (t1 t2 : Int), t1 ≤ t2 → t1 ≠ 0 →
      (collectorReturn t2 primName primPath primDir subdirs).length ≤
      (collectorReturn t1 primName primPath primDir subdirs).length := by
  intro pn pp pd sds t1 t2 h12 h1
  by_cases h2 : t2 = 0
  · subst h2
    simp [collectorReturn]
  · rw [collectorReturn, collectorReturn, if_neg h1, if_neg h2]
    exact (collectAll_mono h12 _ _ _ _).length_le

/-- Witness for C6 at concrete thresholds 1 and 2. -/
theorem C6_threshold_monotone_witness :
    (collectorReturn 2 ("movie.avi".toList) ("d/movie.avi".toList)
        ⟨"d".toList, [⟨"movie.srt".toList, true⟩, ⟨"other.srt".toList, true⟩]⟩ []).length ≤
    (collectorReturn 1 ("movie.avi".toList) ("d/movie.avi".toList)
        ⟨"d".toList, [⟨"movie.srt".toList, true⟩, ⟨"other.srt".toList, true⟩]⟩ []).length :=
  C6_threshold_monotone ("movie.avi".toList) ("d/movie.avi".toList)
    ⟨"d".toList, [⟨"movie.srt".toList, true⟩, ⟨"other.srt".toList, true⟩]⟩ [] 1 2
    (by decide) (by decide)

/-- C8 counterexample: the single-sidecar scan has no hidden-file flag at
all — a dot-named candidate that would otherwise match is never
processed (while the batch scan with the flag set does collect it). -/
theorem C8_counterexample :
    collectEntry 1 ("movie".toList) ("d/movie.avi".toList) ("d".toList) true
      ⟨".movie.srt".toList, true⟩ = none ∧
    collectEntry 1 ("movie".toList) ("d/movie.avi".toList) ("d".toList) true
      ⟨"movie.srt".toList, true⟩ =
      some ⟨"d/movie.srt".toList, SLAVE_PRIORITY_MATCH_ALL, false⟩ ∧
    demuxCollectsSlave true (".movie.srt".toList) = some SLAVE_TYPE_SPU := by
  decide

/-- C8 (amended): the batch scan always skips `.` and `..`, and skips any
other name beginning with `'.'` exactly when the hidden-file flag is not
set; the single-sidecar scan skips *every* name beginning with `'.'`
unconditionally (it consults no flag). -/
theorem C8_hidden_files :
    (∀ hidden : Bool, demuxSkip hidden (".".toList) = true ∧
      demuxSkip hidden ("..".toList) = true) ∧
    (∀ (hidden : Bool) (name : List Char), name.headD nulChar = '.' →
      name ≠ ".".toList → name ≠ "..".toList → demuxSkip hidden name = !hidden) ∧
    (∀ (i_fuzzy : Int) (pt pp dp : List Char) (b : Bool) (e : FsEntry),
      e.name.headD nulChar = '.' → collectEntry i_fuzzy pt pp dp b e = none) := by
  refine ⟨?_, ?_, ?_⟩
  · intro hidden
    constructor <;> simp [demuxSkip]
  · intro hidden name hdot h1 h2
    have hne : name ≠ [] := by
      intro h
      rw [h] at hdot
      exact absurd hdot (by decide)
    have hdot' : name.head?.getD nulChar = '.' := by simpa using hdot
    have h1' : ¬ name = ['.'] := by simpa using h1
    have h2' : ¬ name = ['.', '.'] := by simpa using h2
    cases hidden
    · simp [demuxSkip, hdot', List.length_eq_zero, hne]
    · simp [demuxSkip, hne, h1', h2', List.length_eq_zero]
  · intro fz pt pp dp b e hdot
    have hdot' : e.name.head?.getD nulChar = '.' := by simpa using hdot
    simp [collectEntry, hdot']

/-- Witness for C8: `.x` is skipped without the flag, processed with it,
and a matching `.x.srt` sidecar candidate is still never collected. -/
theorem C8_hidden_files_witness :
    demuxSkip false (".x".toList) = !false ∧ demuxSkip true (".x".toList) = !true ∧
    collectEntry 1 ("x".toList) ("p".toList) ("d".toList) true
      ⟨".x.srt".toList, true⟩ = none :=
  ⟨C8_hidden_files.2.1 false (".x".toList) (by decide) (by decide) (by decide),
   C8_hidden_files.2.1 true (".x".toList) (by decide) (by decide) (by decide),
   C8_hidden_files.2.2 1 ("x".toList) ("p".toList) ("d".toList) true
     ⟨".x.srt".toList, true⟩ (by decide)⟩

/-- C9: with sort mode `version` (and an unsorted stream), any output of
the sort phase is ordered with every directory before every file and
same-type entries in `strverscmp` order; `strverscmp` compares digit
runs by numeric value, so `track2.mkv` sorts before `track10.mkv`; and
with mode `none` the sort phase leaves the enumeration order unchanged. -/
theorem C9_sorting :
    (∀ inp out, sortPhase false (some ("version".toList)) inp out →
      nodeSorted compar_version out ∧
      (∀ (i j : Fin out.length), (i : Nat) < (j : Nat) →
        (out.get i).i_type ≠ ITEM_TYPE_DIRECTORY →
        (out.get j).i_type ≠ ITEM_TYPE_DIRECTORY) ∧
      (∀ (i j : Fin out.length), (i : Nat) < (j : Nat) →
        (out.get i).i_type = (out.get j).i_type →
        strverscmp (out.get i).psz_name (out.get j).psz_name ≤ 0)) ∧
    strverscmp ("track2.mkv".toList) ("track10.mkv".toList) < 0 ∧
    (∀ (b : Bool) inp out, sortPhase b (some ("none".toList)) inp out → out = inp) := by
  refine ⟨?_, by decide, ?_⟩
  · intro inp out h
    have hv : chooseCompar (some ("version".toList)) = SortSel.version := by decide
    simp only [sortPhase, hv, Bool.false_eq_true, if_false] at h
    obtain ⟨hperm, hsort⟩ := h
    have hpw := List.pairwise_iff_get.mp hsort
    refine ⟨hsort, ?_, ?_⟩
    · intro i j hij hi hj
      have hc := hpw i j hij
      have hne : (out.get i).i_type ≠ (out.get j).i_type := fun he => hi (he.trans hj)
      have hct : compar_type (out.get i) (out.get j) = 1 := by
        unfold compar_type
        rw [if_pos hne, if_neg hi, if_pos hj]
      have h1 : compar_version (out.get i) (out.get j) = 1 := by
        simp only [compar_version]
        rw [hct]
        norm_num
      rw [h1] at hc
      omega
    · intro i j hij hty
      have hc := hpw i j hij
      have hct : compar_type (out.get i) (out.get j) = 0 := by
        unfold compar_type
        rw [if_neg (not_not_intro hty)]
      have h0 : compar_version (out.get i) (out.get j) =
          strverscmp (out.get i).psz_name (out.get j).psz_name := by
        simp only [compar_version]
        rw [hct]
        norm_num
      rwa [h0] at hc
  · intro b inp out h
    have hn : chooseCompar (some ("none".toList)) = SortSel.nosort := by decide
    cases b
    · simpa only [sortPhase, hn, Bool.false_eq_true, if_false] using h
    · simpa only [sortPhase, if_true] using h

/-- Witness for C9: a concrete three-item listing sorted under `version`
mode satisfies the sorted-output predicate. -/
theorem C9_sorting_witness :
    nodeSorted compar_version
      [⟨"subdir".toList, "u0".toList, ITEM_TYPE_DIRECTORY⟩,
       ⟨"track2.mkv".toList, "u1".toList, ITEM_TYPE_FILE⟩,
       ⟨"track10.mkv".toList, "u2".toList, ITEM_TYPE_FILE⟩] :=
  (C9_sorting.1
    [⟨"track10.mkv".toList, "u2".toList, ITEM_TYPE_FILE⟩,
     ⟨"track2.mkv".toList, "u1".toList, ITEM_TYPE_FILE⟩,
     ⟨"subdir".toList, "u0".toList, ITEM_TYPE_DIRECTORY⟩]
    [⟨"subdir".toList, "u0".toList, ITEM_TYPE_DIRECTORY⟩,
     ⟨"track2.mkv".toList, "u1".toList, ITEM_TYPE_FILE⟩,
     ⟨"track10.mkv".toList, "u2".toList, ITEM_TYPE_FILE⟩]
    (by
      have hv : chooseCompar (some ("version".toList)) = SortSel.version := by decide
      simp only [sortPhase, hv, Bool.false_eq_true, if_false]
      exact ⟨by decide, by unfold nodeSorted; decide⟩)).1

/-- C10: whenever the conflict pass completes, it changes no candidate's
path or priority, and any candidate whose path has no extension or whose
extension is neither `sub` nor `cdg` keeps its rejected flag unchanged
(the pass only ever *sets* the flag, and only on `sub`/`cdg`
candidates). -/
theorem C10_resolver_frame :
    ∀ l l', resolveConflicts l = some l' →
      List.Forall₂ (fun a b =>
        b.psz_path = a.psz_path ∧ b.i_priority = a.i_priority ∧
        ((∀ e, extOf a.psz_path = some e →
            strcaseeq e ("sub".toList) = false ∧ strcaseeq e ("cdg".toList) = false) →
          b.b_rejected = a.b_rejected)) l l' := by
  intro l l' h
  rw [resolveConflicts] at h
  have h2 := resolveAll_forall₂ (l.map (fun s => s.psz_path)) l l' h
  refine h2.imp ?_
  intro a b hab
  cases hx : extOf a.psz_path with
  | none =>
    simp only [resolveStep, hx] at hab
    obtain rfl := Option.some.inj hab
    exact ⟨rfl, rfl, fun _ => rfl⟩
  | some e =>
    simp only [resolveStep, hx] at hab
    by_cases hs : strcaseeq e ("sub".toList) = true
    · rw [if_pos hs] at hab
      by_cases hp : hasIdxPair a.psz_path (l.map (fun s => s.psz_path)) = true
      · rw [if_pos hp] at hab
        obtain rfl := Option.some.inj hab
        exact ⟨rfl, rfl, fun hcond => absurd ((hcond e rfl).1.symm.trans hs) Bool.false_ne_true⟩
      · rw [if_neg hp] at hab
        exact absurd hab (by simp)
    · rw [if_neg hs] at hab
      by_cases hc : strcaseeq e ("cdg".toList) = true
      · rw [if_pos hc] at hab
        by_cases hlt : a.i_priority < SLAVE_PRIORITY_MATCH_ALL
        · rw [if_pos hlt] at hab
          obtain rfl := Option.some.inj hab
          exact ⟨rfl, rfl, fun hcond => absurd ((hcond e rfl).2.symm.trans hc) Bool.false_ne_true⟩
        · rw [if_neg hlt] at hab
          obtain rfl := Option.some.inj hab
          exact ⟨rfl, rfl, fun _ => rfl⟩
      · rw [if_neg hc] at hab
        obtain rfl := Option.some.inj hab
        exact ⟨rfl, rfl, fun _ => rfl⟩

/-- Witness for C10 on a completed pass over one `.srt` candidate. -/
theorem C10_resolver_frame_witness :
    List.Forall₂ (fun (a b : Subtitle) =>
      b.psz_path = a.psz_path ∧ b.i_priority = a.i_priority ∧
      ((∀ e, extOf a.psz_path = some e →
          strcaseeq e ("sub".toList) = false ∧ strcaseeq e ("cdg".toList) = false) →
        b.b_rejected = a.b_rejected))
      [⟨"d/a.srt".toList, 2, false⟩] [⟨"d/a.srt".toList, 2, false⟩] :=
  C10_resolver_frame [⟨"d/a.srt".toList, 2, false⟩] [⟨"d/a.srt".toList, 2, false⟩]
    (by decide)
